import Mathlib

/-!
Verification of the streaming extraction / filter / schema-inference core of
the `iomaps` package (Python sources under `src/python/iomaps/`).

The development shallowly embeds the Python modules:

* `Streaming7z` — `iomaps/core/streaming_7z.py` (`StreamingPy7zIO`), the
  line-reassembly adapter that turns the push-based decompression callback
  into a line stream.  Bytes are modelled as `Nat` (newline is byte 10); a
  line is modelled by its byte content (the per-line UTF-8 decode performed
  by the source is injective on the byte slices and is dropped from the
  model).
-/

namespace Streaming7z

/-- State of `StreamingPy7zIO`: the partial-line byte buffer `_buffer`, the
cumulative byte count `length`, and `out`, the sequence of lines forwarded so
far to `process_line` (i.e. to the downstream filter). -/
structure StreamingPy7z where
  buffer : List Nat
  length : Nat
  out : List (List Nat)
  deriving Repr, DecidableEq

/-- Model of `StreamingPy7zIO.extract_lines`: repeatedly find the first
newline byte in the buffer, slice off everything up to and including it, and
emit the slice without its trailing newline (the source decodes the slice as
UTF-8 and strips the single trailing newline via `rstrip`).  Returns the
emitted lines together with the remaining (newline-free) buffer. -/
def extract_lines : List Nat → List (List Nat) × List Nat
  | [] => ([], [])
  | b :: rest =>
    let r := extract_lines rest
    if b = 10 then
      ([] :: r.1, r.2)
    else
      match r.1 with
      | [] => ([], b :: r.2)
      | l :: ls => ((b :: l) :: ls, r.2)

/-- Model of `StreamingPy7zIO.write(data)`: append `data` to the buffer,
extract all complete lines, forward them, and add `len(data)` to `length`. -/
def write (s : StreamingPy7z) (data : List Nat) : StreamingPy7z :=
  let r := extract_lines (s.buffer ++ data)
  { buffer := r.2, length := s.length + data.length, out := s.out ++ r.1 }

/-- Model of `StreamingPy7zIO.flush_last_line`: if the buffer is non-empty,
clear it and forward its content as one final line (the source forwards the
raw bytes without decoding). -/
def flush_last_line (s : StreamingPy7z) : StreamingPy7z :=
  if s.buffer = [] then s
  else { buffer := [], length := s.length, out := s.out ++ [s.buffer] }

/-- Fresh adapter state, as built by `StreamingWriterFactory.create`. -/
def initState : StreamingPy7z := ⟨[], 0, []⟩

/-- Feeding a sequence of chunks through `write` and then flushing once. -/
def runChunks (chunks : List (List Nat)) : StreamingPy7z :=
  flush_last_line (chunks.foldl write initState)

theorem extract_lines_cons_newline (rest : List Nat) :
    extract_lines (10 :: rest) =
      ([] :: (extract_lines rest).1, (extract_lines rest).2) := by
  simp [extract_lines]

theorem extract_lines_cons_other (b : Nat) (rest : List Nat) (hb : b ≠ 10) :
    extract_lines (b :: rest) =
      (match (extract_lines rest).1 with
        | [] => ([], b :: (extract_lines rest).2)
        | l :: ls => ((b :: l) :: ls, (extract_lines rest).2)) := by
  simp [extract_lines, hb]

theorem extract_lines_append (a b : List Nat) :
    extract_lines (a ++ b) =
      ((extract_lines a).1 ++ (extract_lines ((extract_lines a).2 ++ b)).1,
        (extract_lines ((extract_lines a).2 ++ b)).2) := by
  induction a with
  | nil => simp [extract_lines]
  | cons x a ih =>
    by_cases hx : x = 10
    · subst hx
      rw [List.cons_append, extract_lines_cons_newline, ih,
        extract_lines_cons_newline]
      simp
    · rw [List.cons_append, extract_lines_cons_other x _ hx, ih,
        extract_lines_cons_other x a hx]
      cases h1 : (extract_lines a).1 with
      | nil =>
        simp only [h1, List.nil_append, List.cons_append]
        rw [extract_lines_cons_other x _ hx]
      | cons l ls =>
        simp [h1]

theorem newline_not_mem_tail (l : List Nat) : 10 ∉ (extract_lines l).2 := by
  induction l with
  | nil => simp [extract_lines]
  | cons b rest ih =>
    by_cases hb : b = 10
    · subst hb; simpa [extract_lines] using ih
    · simp only [extract_lines, if_neg hb]
      cases h1 : (extract_lines rest).1 with
      | nil =>
        simp only [List.mem_cons, not_or]
        exact ⟨fun h => hb h.symm, ih⟩
      | cons l ls => simpa using ih

theorem extract_lines_of_no_newline (l : List Nat) (h : 10 ∉ l) :
    extract_lines l = ([], l) := by
  induction l with
  | nil => rfl
  | cons b rest ih =>
    have hb : b ≠ 10 := fun hb => h (hb ▸ List.mem_cons_self b rest)
    have hrest : 10 ∉ rest := fun hr => h (List.mem_cons_of_mem b hr)
    simp [extract_lines, if_neg hb, ih hrest]

theorem extract_lines_tail_fix (l : List Nat) :
    extract_lines (extract_lines l).2 = ([], (extract_lines l).2) :=
  extract_lines_of_no_newline _ (newline_not_mem_tail l)

theorem foldl_write_eq (chunks : List (List Nat)) :
    ∀ s : StreamingPy7z, extract_lines s.buffer = ([], s.buffer) →
      chunks.foldl write s =
        ⟨(extract_lines (s.buffer ++ chunks.flatten)).2,
          s.length + chunks.flatten.length,
          s.out ++ (extract_lines (s.buffer ++ chunks.flatten)).1⟩ := by
  induction chunks with
  | nil =>
    intro s hs
    simp [hs]
  | cons d cs ih =>
    intro s hs
    have hstep : (d :: cs).foldl write s = cs.foldl write (write s d) := rfl
    rw [hstep, ih (write s d) (extract_lines_tail_fix (s.buffer ++ d))]
    have hsplit := extract_lines_append (s.buffer ++ d) cs.flatten
    unfold write
    simp only [List.flatten_cons, ← List.append_assoc, hsplit,
      List.length_append, StreamingPy7z.mk.injEq]
    refine ⟨?_, ?_, ?_⟩ <;> first | omega | trivial

/-- C1.  Line-boundary invariance of the reassembly adapter: feeding any
chunking of a byte sequence through `write` and then `flush_last_line`
forwards exactly the lines obtained by splitting the concatenated input at
newline bytes, with a non-empty unterminated tail forwarded as one final
line; consequently two chunkings of the same byte sequence forward the same
line sequence, and between calls the unmatched tail stays in the buffer. -/
theorem line_reassembly_chunk_invariance (chunks chunks' : List (List Nat))
    (h : chunks.flatten = chunks'.flatten) :
    (runChunks chunks).out =
        (extract_lines chunks.flatten).1 ++
          (if (extract_lines chunks.flatten).2 = [] then []
            else [(extract_lines chunks.flatten).2])
      ∧ (runChunks chunks).out = (runChunks chunks').out
      ∧ (chunks.foldl write initState).buffer = (extract_lines chunks.flatten).2 := by
  have base : ∀ cs : List (List Nat),
      cs.foldl write initState =
        ⟨(extract_lines cs.flatten).2, cs.flatten.length, (extract_lines cs.flatten).1⟩ := by
    intro cs
    have h0 : extract_lines (initState.buffer) = ([], initState.buffer) := rfl
    simpa [initState] using foldl_write_eq cs initState h0
  have hout : ∀ cs : List (List Nat),
      (runChunks cs).out =
        (extract_lines cs.flatten).1 ++
          (if (extract_lines cs.flatten).2 = [] then []
            else [(extract_lines cs.flatten).2]) := by
    intro cs
    unfold runChunks
    rw [base cs]
    unfold flush_last_line
    by_cases ht : (extract_lines cs.flatten).2 = [] <;> simp [ht]
  refine ⟨hout chunks, ?_, by rw [base chunks]⟩
  rw [hout chunks, hout chunks', h]

/-- Witness for C1 at a concrete input: the byte sequence
[104, 105, 10, 119] chunked as one chunk and as three chunks forwards the
same lines. -/
theorem line_reassembly_chunk_invariance_spot :
    ([[104, 105, 10, 119]] : List (List Nat)).flatten =
        ([[104], [105, 10], [119]] : List (List Nat)).flatten
      ∧ (runChunks [[104, 105, 10, 119]]).out =
          (runChunks [[104], [105, 10], [119]]).out :=
  ⟨by decide, (line_reassembly_chunk_invariance [[104, 105, 10, 119]]
      [[104], [105, 10], [119]] (by decide)).2.1⟩

/-- C10.  `flush_last_line` forwards the buffered tail at most once: after
one call the buffer is empty, a second consecutive call is the identity, and
in particular it forwards nothing further. -/
theorem flush_last_line_at_most_once (s : StreamingPy7z) :
    (flush_last_line s).buffer = []
      ∧ flush_last_line (flush_last_line s) = flush_last_line s
      ∧ (flush_last_line (flush_last_line s)).out = (flush_last_line s).out := by
  unfold flush_last_line
  by_cases h : s.buffer = [] <;> simp [h]

end Streaming7z

namespace InferSchema

/-- Second half of the type-unification step of `SchemaWriter.get_schema`:
drop `NoneType` when exactly one other tag remains, then map a single
surviving tag to itself (`NoneType` alone to `str`) and anything else to
`str`. -/
def unify_rest (types1 : List String) : String :=
  match
    (if "NoneType" ∈ types1 ∧ types1.length = 2 then types1.erase "NoneType"
      else types1) with
  | [t] => if t = "NoneType" then "str" else t
  | _ => "str"

/-- Model of the type-unification step of `SchemaWriter.get_schema`
(`iomaps/core/infer_schema.py`, identical logic in the legacy
`iomaps/infer_schema.py`): starting from the set of observed Python runtime
type names for one property (modelled as a duplicate-free list), drop `int`
when `float` is also present, then continue with `unify_rest`. -/
def unify (types0 : List String) : String :=
  unify_rest
    (if "int" ∈ types0 ∧ "float" ∈ types0 then types0.erase "int" else types0)

theorem unify_int_float_drop (l : List String) (hnd : l.Nodup)
    (hi : "int" ∈ l) (hf : "float" ∈ l) :
    unify l = unify (l.erase "int") := by
  unfold unify
  rw [if_pos ⟨hi, hf⟩]
  have h2 : ¬("int" ∈ l.erase "int" ∧ "float" ∈ l.erase "int") := by
    intro h
    exact ((List.Nodup.mem_erase_iff hnd).1 h.1).1 rfl
  rw [if_neg h2]

theorem unify_pair_with_null (t : String) (ht : t ≠ "NoneType")
    (l : List String) (hnd : l.Nodup) (hlen : l.length = 2)
    (htl : t ∈ l) (hnl : "NoneType" ∈ l) :
    unify l = t := by
  have hcases : l = [t, "NoneType"] ∨ l = ["NoneType", t] := by
    match l, hlen with
    | [x, y], _ =>
      simp only [List.mem_cons, List.not_mem_nil, or_false] at htl hnl
      rcases htl with h1 | h1 <;> rcases hnl with h2 | h2
      · exact absurd (h1.trans h2.symm) ht
      · subst h1; subst h2; exact Or.inl rfl
      · subst h1; subst h2; exact Or.inr rfl
      · exact absurd (h1.trans h2.symm) ht
  have hpair : ∀ a b : String, a ≠ "int" ∨ b ≠ "float" →
      a ≠ "float" ∨ b ≠ "int" →
      ¬("int" ∈ ([a, b] : List String) ∧ "float" ∈ ([a, b] : List String)) := by
    rintro a b hab hba ⟨hi, hf⟩
    simp only [List.mem_cons, List.not_mem_nil, or_false] at hi hf
    rcases hi with hi | hi <;> rcases hf with hf | hf
    · exact absurd (hi.trans hf.symm) (by decide)
    · rcases hab with h | h
      · exact h hi.symm
      · exact h hf.symm
    · rcases hba with h | h
      · exact h hf.symm
      · exact h hi.symm
    · exact absurd (hi.trans hf.symm) (by decide)
  rcases hcases with rfl | rfl
  · unfold unify
    rw [if_neg (hpair t "NoneType" (Or.inr (by decide)) (Or.inr (by decide)))]
    unfold unify_rest
    rw [if_pos ⟨by simp, rfl⟩]
    have herase : ([t, "NoneType"] : List String).erase "NoneType" = [t] := by
      simp [List.erase_cons, ht]
    rw [herase]
    simp [ht]
  · unfold unify
    rw [if_neg (hpair "NoneType" t (Or.inl (by decide)) (Or.inl (by decide)))]
    unfold unify_rest
    rw [if_pos ⟨by simp, rfl⟩]
    have herase : (["NoneType", t] : List String).erase "NoneType" = [t] := by
      simp [List.erase_cons]
    rw [herase]
    simp [ht]

theorem unify_singleton (t : String) (ht : t ≠ "NoneType") : unify [t] = t := by
  unfold unify
  have h1 : ¬("int" ∈ ([t] : List String) ∧ "float" ∈ ([t] : List String)) := by
    rintro ⟨hi, hf⟩
    simp only [List.mem_singleton] at hi hf
    exact absurd (hi.trans hf.symm) (by decide)
  rw [if_neg h1]
  unfold unify_rest
  rw [if_neg (by simp)]
  simp [ht]

theorem unify_multi_fallback (l : List String) (hlen : 2 ≤ l.length)
    (hif : ¬("int" ∈ l ∧ "float" ∈ l))
    (hn : ¬("NoneType" ∈ l ∧ l.length = 2)) :
    unify l = "str" := by
  unfold unify
  rw [if_neg hif]
  unfold unify_rest
  rw [if_neg hn]
  match l, hlen with
  | a :: b :: rest, _ => rfl

/-- C2.  Type-unification laws of schema inference: `int` is dropped when
`float` is present; a two-element set of `NoneType` and one other type `T`
unifies to `T`; the singleton `NoneType` set unifies to `str`; any other
singleton unifies to its element; and any other set with two or more
remaining distinct types — one with at least two elements on which neither
removal step fires — unifies to `str` (sets that still contain a removable
`int` reduce to this case through the first law). -/
theorem type_unification_laws :
    (∀ l : List String, l.Nodup → "int" ∈ l → "float" ∈ l →
        unify l = unify (l.erase "int"))
      ∧ (∀ (t : String) (l : List String), t ≠ "NoneType" → l.Nodup →
          l.length = 2 → t ∈ l → "NoneType" ∈ l → unify l = t)
      ∧ unify ["NoneType"] = "str"
      ∧ (∀ t : String, t ≠ "NoneType" → unify [t] = t)
      ∧ (∀ l : List String, 2 ≤ l.length →
          ¬("int" ∈ l ∧ "float" ∈ l) → ¬("NoneType" ∈ l ∧ l.length = 2) →
          unify l = "str") :=
  ⟨fun l hnd hi hf => unify_int_float_drop l hnd hi hf,
    fun t l ht hnd hlen htl hnl => unify_pair_with_null t ht l hnd hlen htl hnl,
    by decide,
    fun t ht => unify_singleton t ht,
    fun l hlen hif hn => unify_multi_fallback l hlen hif hn⟩

/-- Witness for C2 at concrete inputs, one per law, with the fallback law
exercised at a pair and at a three-element set. -/
theorem type_unification_laws_spot :
    unify ["int", "float"] = unify ["float"]
      ∧ unify ["float", "NoneType"] = "float"
      ∧ unify ["NoneType"] = "str"
      ∧ unify ["bool"] = "bool"
      ∧ unify ["str", "bool"] = "str"
      ∧ unify ["str", "bool", "dict"] = "str" :=
  ⟨by
      have h := type_unification_laws.1 ["int", "float"] (by decide) (by decide)
        (by decide)
      simpa using h,
    type_unification_laws.2.1 "float" ["float", "NoneType"] (by decide)
      (by decide) (by decide) (by decide) (by decide),
    type_unification_laws.2.2.1,
    type_unification_laws.2.2.2.1 "bool" (by decide),
    type_unification_laws.2.2.2.2 ["str", "bool"] (by decide) (by decide)
      (by decide),
    type_unification_laws.2.2.2.2 ["str", "bool", "dict"] (by decide)
      (by decide) (by decide)⟩

end InferSchema

namespace InferSchema

/-- Python strings for the collision-resolution model are their character
lists. -/
abbrev PyStr := List Char

/-- Model of Python `str.lower()` on one ASCII character. -/
def lower_char (c : Char) : Char :=
  if 'A' ≤ c ∧ c ≤ 'Z' then Char.ofNat (c.toNat + 32) else c

/-- Model of Python `str.lower()`. -/
def lower (s : PyStr) : PyStr := s.map lower_char

/-- Decimal digit character, as produced when formatting an integer. -/
def digit_char (d : Nat) : Char :=
  match d with
  | 0 => '0' | 1 => '1' | 2 => '2' | 3 => '3' | 4 => '4'
  | 5 => '5' | 6 => '6' | 7 => '7' | 8 => '8' | 9 => '9'
  | _ => '*'

/-- Decimal digits of a natural number (big-endian), with explicit fuel so
that the definition is structural; `nat_digits` supplies enough fuel. -/
def nat_digits_core : Nat → Nat → List Char
  | 0, _ => []
  | fuel + 1, n =>
    if n < 10 then [digit_char n]
    else nat_digits_core fuel (n / 10) ++ [digit_char (n % 10)]

/-- Decimal representation of a natural number, modelling Python string
formatting of the rename suffix. -/
def nat_digits (n : Nat) : List Char := nat_digits_core (n + 1) n

/-- Model of the Python f-string `key_suffix` used to build a candidate
replacement name. -/
def cand_name (key : PyStr) (suffix : Nat) : PyStr :=
  key ++ '_' :: nat_digits suffix

/-- Reads a digit string back as a number; used to invert `nat_digits`. -/
def digits_val (l : List Char) : Nat :=
  l.foldl (fun a c => a * 10 + (c.toNat - 48)) 0

theorem digit_char_toNat (d : Nat) (h : d < 10) :
    (digit_char d).toNat = 48 + d := by
  interval_cases d <;> rfl

theorem digits_val_append_singleton (l : List Char) (c : Char) :
    digits_val (l ++ [c]) = digits_val l * 10 + (c.toNat - 48) := by
  simp [digits_val, List.foldl_append]

theorem nat_digits_core_val :
    ∀ fuel n, n < fuel → digits_val (nat_digits_core fuel n) = n := by
  intro fuel
  induction fuel with
  | zero => intro n h; omega
  | succ fuel ih =>
    intro n h
    by_cases h10 : n < 10
    · simp [nat_digits_core, h10, digits_val, digit_char_toNat n h10]
    · have hdiv : n / 10 < fuel := by
        have h1 : n / 10 < n := Nat.div_lt_self (by omega) (by omega)
        omega
      simp only [nat_digits_core, if_neg h10, digits_val_append_singleton,
        ih (n / 10) hdiv, digit_char_toNat (n % 10) (Nat.mod_lt n (by omega))]
      omega

theorem nat_digits_val (n : Nat) : digits_val (nat_digits n) = n :=
  nat_digits_core_val (n + 1) n (Nat.lt_succ_self n)

theorem nat_digits_inj {a b : Nat} (h : nat_digits a = nat_digits b) : a = b := by
  rw [← nat_digits_val a, ← nat_digits_val b, h]

theorem nat_digits_core_mem :
    ∀ fuel n, n < fuel → ∀ c ∈ nat_digits_core fuel n, ∃ d, d < 10 ∧ c = digit_char d := by
  intro fuel
  induction fuel with
  | zero => intro n h; omega
  | succ fuel ih =>
    intro n h c hc
    by_cases h10 : n < 10
    · simp only [nat_digits_core, if_pos h10, List.mem_singleton] at hc
      exact ⟨n, h10, hc⟩
    · have hdiv : n / 10 < fuel := by
        have h1 : n / 10 < n := Nat.div_lt_self (by omega) (by omega)
        omega
      simp only [nat_digits_core, if_neg h10, List.mem_append,
        List.mem_singleton] at hc
      rcases hc with hc | hc
      · exact ih (n / 10) hdiv c hc
      · exact ⟨n % 10, Nat.mod_lt n (by omega), hc⟩

theorem lower_char_digit (d : Nat) (h : d < 10) :
    lower_char (digit_char d) = digit_char d := by
  interval_cases d <;> decide

theorem lower_nat_digits (n : Nat) : (nat_digits n).map lower_char = nat_digits n := by
  have h := nat_digits_core_mem (n + 1) n (Nat.lt_succ_self n)
  rw [show (nat_digits n).map lower_char = (nat_digits n).map id from ?_, List.map_id]
  apply List.map_congr_left
  intro c hc
  obtain ⟨d, hd, rfl⟩ := h c hc
  exact lower_char_digit d hd

theorem lower_cand_name (key : PyStr) (s : Nat) :
    lower (cand_name key s) = lower key ++ '_' :: nat_digits s := by
  simp only [lower, cand_name, List.map_append, List.map_cons, lower_nat_digits]
  rw [show lower_char '_' = '_' from by decide]

theorem cand_name_lower_inj (key : PyStr) {s t : Nat}
    (h : lower (cand_name key s) = lower (cand_name key t)) : s = t := by
  rw [lower_cand_name, lower_cand_name] at h
  have h2 := List.append_cancel_left h
  exact nat_digits_inj (List.cons.inj h2).2

theorem exists_free_suffix (seen : List PyStr) (key : PyStr) :
    ∃ i, i ≤ seen.length ∧ lower (cand_name key (2 + i)) ∉ seen := by
  by_contra hcon
  push_neg at hcon
  set f : Nat → PyStr := fun i => lower (cand_name key (2 + i)) with hf
  have hinj : Set.InjOn f (Finset.range (seen.length + 1)) := by
    intro i _ j _ hij
    have := cand_name_lower_inj key hij
    omega
  have hsub : (Finset.range (seen.length + 1)).image f ⊆ seen.toFinset := by
    intro x hx
    rw [Finset.mem_image] at hx
    obtain ⟨i, hi, rfl⟩ := hx
    rw [Finset.mem_range] at hi
    exact List.mem_toFinset.2 (hcon i (by omega))
  have hcard : ((Finset.range (seen.length + 1)).image f).card = seen.length + 1 := by
    rw [Finset.card_image_of_injOn hinj, Finset.card_range]
  have hle := Finset.card_le_card hsub
  have hlen := seen.toFinset_card_le
  omega

/-- Model of the probing loop in `SchemaWriter.get_schema`: starting from
`suffix = 2`, increment the suffix while the lowercased candidate name is
already a key of `seen_lower`; the fuel argument makes the definition
structural and `find_suffix` supplies enough fuel for the search to always
complete (see `find_suffix_spec`). -/
def find_suffix_core (seen : List PyStr) (key : PyStr) : Nat → Nat → Nat
  | 0, s => s
  | fuel + 1, s =>
    if lower (cand_name key s) ∈ seen then find_suffix_core seen key fuel (s + 1)
    else s

/-- The suffix chosen for a colliding key: the first `suffix ≥ 2` whose
lowercased candidate name is not already present. -/
def find_suffix (seen : List PyStr) (key : PyStr) : Nat :=
  find_suffix_core seen key (seen.length + 1) 2

theorem find_suffix_core_spec (seen : List PyStr) (key : PyStr) :
    ∀ fuel s, (∃ i, i < fuel ∧ lower (cand_name key (s + i)) ∉ seen) →
      s ≤ find_suffix_core seen key fuel s
        ∧ lower (cand_name key (find_suffix_core seen key fuel s)) ∉ seen
        ∧ ∀ t, s ≤ t → t < find_suffix_core seen key fuel s →
            lower (cand_name key t) ∈ seen := by
  intro fuel
  induction fuel with
  | zero =>
    intro s h
    obtain ⟨i, hi, _⟩ := h
    omega
  | succ fuel ih =>
    intro s h
    by_cases hc : lower (cand_name key s) ∈ seen
    · have hex : ∃ i, i < fuel ∧ lower (cand_name key (s + 1 + i)) ∉ seen := by
        obtain ⟨i, hi, hfree⟩ := h
        have hne : i ≠ 0 := by
          rintro rfl
          simp only [Nat.add_zero] at hfree
          exact hfree hc
        exact ⟨i - 1, by omega, by
          have : s + 1 + (i - 1) = s + i := by omega
          rw [this]; exact hfree⟩
      have hres := ih (s + 1) hex
      simp only [find_suffix_core, if_pos hc]
      refine ⟨by omega, hres.2.1, ?_⟩
      intro t h1 h2
      rcases Nat.eq_or_lt_of_le h1 with rfl | h1'
      · exact hc
      · exact hres.2.2 t (by omega) h2
    · simp only [find_suffix_core, if_neg hc]
      exact ⟨Nat.le_refl s, hc, fun t h1 h2 => by omega⟩

theorem find_suffix_spec (seen : List PyStr) (key : PyStr) :
    2 ≤ find_suffix seen key
      ∧ lower (cand_name key (find_suffix seen key)) ∉ seen
      ∧ ∀ t, 2 ≤ t → t < find_suffix seen key → lower (cand_name key t) ∈ seen := by
  have hex : ∃ i, i < seen.length + 1 ∧ lower (cand_name key (2 + i)) ∉ seen := by
    obtain ⟨i, hi, hfree⟩ := exists_free_suffix seen key
    exact ⟨i, by omega, hfree⟩
  exact find_suffix_core_spec seen key (seen.length + 1) 2 hex

/-- State of the collision-resolution loop in `SchemaWriter.get_schema`:
`seen_lower` models the insertion-ordered dict from lowercased name to
canonical key, `renames` the insertion-ordered dict from original key to
replacement name. -/
structure RenameState where
  seen_lower : List (PyStr × PyStr)
  renames : List (PyStr × PyStr)
  deriving Repr, DecidableEq

/-- Keys of the `seen_lower` dict. -/
def seen_keys (st : RenameState) : List PyStr := st.seen_lower.map Prod.fst

/-- One iteration of the collision-resolution loop of
`SchemaWriter.get_schema` for one collected property key: a key whose
lowercase form is new is recorded as the canonical key of its group;
otherwise the key is renamed to `key_suffix` for the first free suffix
starting from 2, and the new name is recorded in both dicts. -/
def resolve_key (st : RenameState) (key : PyStr) : RenameState :=
  if lower key ∉ seen_keys st then
    { st with seen_lower := st.seen_lower ++ [(lower key, key)] }
  else
    let suffix := find_suffix (seen_keys st) key
    let new_key := cand_name key suffix
    { seen_lower := st.seen_lower ++ [(lower new_key, new_key)],
      renames := st.renames ++ [(key, new_key)] }

/-- The collision-resolution pass of `SchemaWriter.get_schema` over the
collected property keys in first-seen order. -/
def get_schema_renames (keys : List PyStr) : RenameState :=
  keys.foldl resolve_key ⟨[], []⟩

theorem get_schema_renames_snoc (ks : List PyStr) (k : PyStr) :
    get_schema_renames (ks ++ [k]) = resolve_key (get_schema_renames ks) k := by
  unfold get_schema_renames
  rw [List.foldl_append]
  rfl

/-- C3.  Case-insensitive collision resolution: running the pass is
deterministic; a key whose lowercase form is not yet among the names chosen
so far keeps its original name (no rename is recorded); a key that collides
case-insensitively with a name chosen so far is renamed to `key_s` where
`s ≥ 2` is the smallest suffix whose resulting name does not collide
case-insensitively with any name chosen so far, and the pair is appended to
the renames map. -/
theorem case_insensitive_collision_resolution (ks : List PyStr) (k : PyStr) :
    get_schema_renames ks = get_schema_renames ks
      ∧ (lower k ∉ seen_keys (get_schema_renames ks) →
          (get_schema_renames (ks ++ [k])).renames
              = (get_schema_renames ks).renames
            ∧ (get_schema_renames (ks ++ [k])).seen_lower
              = (get_schema_renames ks).seen_lower ++ [(lower k, k)])
      ∧ (lower k ∈ seen_keys (get_schema_renames ks) →
          ∃ s, 2 ≤ s
            ∧ lower (cand_name k s) ∉ seen_keys (get_schema_renames ks)
            ∧ (∀ t, 2 ≤ t → t < s →
                lower (cand_name k t) ∈ seen_keys (get_schema_renames ks))
            ∧ (get_schema_renames (ks ++ [k])).renames
                = (get_schema_renames ks).renames ++ [(k, cand_name k s)]
            ∧ (get_schema_renames (ks ++ [k])).seen_lower
                = (get_schema_renames ks).seen_lower
                    ++ [(lower (cand_name k s), cand_name k s)]) := by
  refine ⟨rfl, ?_, ?_⟩
  · intro hnew
    rw [get_schema_renames_snoc, resolve_key, if_pos hnew]
    exact ⟨rfl, rfl⟩
  · intro hold
    have hspec := find_suffix_spec (seen_keys (get_schema_renames ks)) k
    refine ⟨find_suffix (seen_keys (get_schema_renames ks)) k,
      hspec.1, hspec.2.1, hspec.2.2, ?_, ?_⟩
    · rw [get_schema_renames_snoc, resolve_key, if_neg (by simpa using hold)]
    · rw [get_schema_renames_snoc, resolve_key, if_neg (by simpa using hold)]

/-- Witness for C3 at a concrete input: after collecting key `A`, the key
`a` collides case-insensitively and is renamed to `a_2`. -/
theorem case_insensitive_collision_resolution_spot :
    ∃ s, 2 ≤ s
      ∧ lower (cand_name ['a'] s) ∉ seen_keys (get_schema_renames [['A']])
      ∧ (∀ t, 2 ≤ t → t < s →
          lower (cand_name ['a'] t) ∈ seen_keys (get_schema_renames [['A']]))
      ∧ (get_schema_renames ([['A']] ++ [['a']])).renames
          = (get_schema_renames [['A']]).renames ++ [(['a'], cand_name ['a'] s)]
      ∧ (get_schema_renames ([['A']] ++ [['a']])).seen_lower
          = (get_schema_renames [['A']]).seen_lower
              ++ [(lower (cand_name ['a'] s), cand_name ['a'] s)] :=
  (case_insensitive_collision_resolution [['A']] ['a']).2.2 (by decide)

end InferSchema

namespace SpatialFilter

/-- JSON values carried in feature properties and coordinate payloads. -/
inductive JValue where
  | null
  | bool (b : Bool)
  | num (n : Int)
  | str (s : String)
  | arr (vs : List JValue)
  | obj (kvs : List (String × JValue))

/-- The JSON object stored under a feature's `geometry` key: its `type`
member (`gtype`, `none` when absent) and its `coordinates` member. -/
structure GeomJson where
  gtype : Option String
  coordinates : Option JValue

/-- A parsed GeoJSON feature line: `geometry` is `none` when the feature
has no usable `geometry` member (accessing it raises in Python), and
`properties` is `none` when the `properties` member is absent or null. -/
structure Feature where
  geometry : Option GeomJson
  properties : Option (List (String × JValue))

/-- Python dict lookup `props.get(k)` on an insertion-ordered dict. -/
def dict_get (ps : List (String × JValue)) (k : String) : Option JValue :=
  match ps with
  | [] => none
  | (k', v) :: rest => if k' = k then some v else dict_get rest k

/-- Removing a key from an insertion-ordered dict (`props.pop`). -/
def dict_erase (ps : List (String × JValue)) (k : String) :
    List (String × JValue) :=
  match ps with
  | [] => []
  | (k', v) :: rest => if k' = k then rest else (k', v) :: dict_erase rest k

/-- Python dict assignment `props[k] = v`: overwrite in place when the key
exists, append otherwise. -/
def dict_set (ps : List (String × JValue)) (k : String) (v : JValue) :
    List (String × JValue) :=
  if (dict_get ps k).isSome then
    ps.map fun kv => if kv.1 = k then (kv.1, v) else kv
  else ps ++ [(k, v)]

/-- One iteration of the rename loop in `BaseFilter._apply_renames`:
`props[new_key] = props.pop(old_key)` when `old_key` is present. -/
def apply_one_rename (ps : List (String × JValue)) (old_key new_key : String) :
    List (String × JValue) :=
  match dict_get ps old_key with
  | none => ps
  | some v => dict_set (dict_erase ps old_key) new_key v

/-- Model of `BaseFilter._apply_renames` (`iomaps/core/spatial_filter.py`):
when renames are configured and the feature has a non-empty properties
dict, pop each original key and re-insert its value under the new key. -/
def apply_renames (property_renames : List (String × String)) (f : Feature) :
    Feature :=
  if property_renames = [] then f
  else
    match f.properties with
    | none => f
    | some ps =>
      if ps.isEmpty then f
      else
        { f with
            properties :=
              some (property_renames.foldl
                (fun ps r => apply_one_rename ps r.1 r.2) ps) }

/-- Model of `BaseFilter._normalize_properties`: when schema properties are
configured, rebuild the properties dict from the schema's property names in
schema order, defaulting absent keys to null; with no schema properties the
feature is returned unchanged. -/
def normalize_properties (schema_properties : List String) (f : Feature) :
    Feature :=
  if schema_properties = [] then f
  else
    { f with
        properties :=
          some (schema_properties.map fun k =>
            (k, (dict_get (f.properties.getD []) k).getD JValue.null)) }

/-- The counter fields shared by the filters. -/
structure Counters where
  count : Nat
  passed : Nat
  unparsed : Nat
  error_count : Nat
  deriving Repr, DecidableEq

/-- Configuration of the core filters: the `property_renames` and
`schema_properties` constructor arguments of `BaseFilter`. -/
structure FilterConfig where
  property_renames : List (String × String)
  schema_properties : List String

/-- Model of `PassThroughFilter.process` (`iomaps/core/spatial_filter.py`).
The line argument is the outcome of `json.loads`: `none` models a JSON
decode failure. -/
def passthrough_process (cfg : FilterConfig) (st : Counters)
    (line : Option Feature) : Counters × Option Feature :=
  let st := { st with count := st.count + 1 }
  match line with
  | none => ({ st with unparsed := st.unparsed + 1 }, none)
  | some feature =>
    let st := { st with passed := st.passed + 1 }
    (st, some (normalize_properties cfg.schema_properties
        (apply_renames cfg.property_renames feature)))

theorem dict_get_tabulate (fv : String → JValue) :
    ∀ (ks : List String) (k : String), k ∈ ks →
      dict_get (ks.map fun x => (x, fv x)) k = some (fv k) := by
  intro ks
  induction ks with
  | nil => intro k h; cases h
  | cons k' ks ih =>
    intro k hk
    by_cases hkk : k' = k
    · subst hkk
      simp [dict_get]
    · have hmem : k ∈ ks := by
        rcases List.mem_cons.1 hk with h | h
        · exact absurd h.symm hkk
        · exact h
      simp only [List.map_cons, dict_get, if_neg hkk]
      exact ih k hmem

/-- C4 (amended: the schema property set is non-empty).  The pass-through
filter emits every accepted feature with a properties dict whose keys are
exactly the schema's property names in schema order; each key's value is
looked up in the feature's renamed properties, and a key absent there is
bound to null. -/
theorem normalization_completeness (cfg : FilterConfig) (st : Counters)
    (f : Feature) (h : cfg.schema_properties ≠ []) :
    ∃ g, (passthrough_process cfg st (some f)).2 = some g
      ∧ (g.properties.getD []).map Prod.fst = cfg.schema_properties
      ∧ (∀ k, k ∈ cfg.schema_properties →
          dict_get (g.properties.getD []) k
            = some ((dict_get
                ((apply_renames cfg.property_renames f).properties.getD [])
                k).getD JValue.null))
      ∧ (∀ k, k ∈ cfg.schema_properties →
          dict_get ((apply_renames cfg.property_renames f).properties.getD [])
              k = none →
          dict_get (g.properties.getD []) k = some JValue.null) := by
  refine ⟨normalize_properties cfg.schema_properties
      (apply_renames cfg.property_renames f), rfl, ?_, ?_, ?_⟩
  · unfold normalize_properties
    rw [if_neg h]
    simp [List.map_map, Function.comp_def]
  · intro k hk
    unfold normalize_properties
    rw [if_neg h]
    simpa using dict_get_tabulate _ cfg.schema_properties k hk
  · intro k hk hnone
    unfold normalize_properties
    rw [if_neg h]
    have := dict_get_tabulate
      (fun k => (dict_get
        ((apply_renames cfg.property_renames f).properties.getD [])
        k).getD JValue.null) cfg.schema_properties k hk
    simpa [hnone] using this

/-- Witness for C4 at the spec's concrete instance: schema properties
a, b, c and an input feature carrying only a. -/
theorem normalization_completeness_spot :
    ∃ g, (passthrough_process ⟨[], ["a", "b", "c"]⟩ ⟨0, 0, 0, 0⟩
        (some ⟨none, some [("a", JValue.num 1)]⟩)).2 = some g
      ∧ (g.properties.getD []).map Prod.fst = ["a", "b", "c"]
      ∧ (∀ k, k ∈ (["a", "b", "c"] : List String) →
          dict_get (g.properties.getD []) k
            = some ((dict_get
                ((apply_renames [] ⟨none, some [("a", JValue.num 1)]⟩).properties.getD [])
                k).getD JValue.null))
      ∧ (∀ k, k ∈ (["a", "b", "c"] : List String) →
          dict_get ((apply_renames [] ⟨none, some [("a", JValue.num 1)]⟩).properties.getD [])
              k = none →
          dict_get (g.properties.getD []) k = some JValue.null) :=
  normalization_completeness ⟨[], ["a", "b", "c"]⟩ ⟨0, 0, 0, 0⟩
    ⟨none, some [("a", JValue.num 1)]⟩ (by simp)

/-- C4 counterexample: with an empty schema property set,
`_normalize_properties` returns the feature unchanged, so the emitted
feature keeps the input key `a` instead of having exactly the (empty)
schema property-name set. -/
theorem normalization_empty_schema_counterexample :
    ((passthrough_process ⟨[], []⟩ ⟨0, 0, 0, 0⟩
          (some ⟨none, some [("a", JValue.str "x")]⟩)).2.map
        fun g => (g.properties.getD []).map Prod.fst) = some ["a"]
      ∧ (["a"] : List String) ≠ ([] : List String) :=
  ⟨rfl, by simp⟩

end SpatialFilter

namespace SpatialFilter

/-- Interface of the shapely geometry collaborator as used by the filters:
`shape` builds a geometry from the feature's geometry JSON,
`fix_if_required` repairs an invalid geometry, `intersects` is the prepared
filter shape's intersection test, and `intersection` is the clip operation
(`filter_shape.context.intersection(...).__geo_interface__`).  Each call
may raise, modelled by `Except Unit`. -/
structure ShapelyOracle (Shape : Type) where
  shape : GeomJson → Except Unit Shape
  fix_if_required : Shape → Except Unit Shape
  intersects : Shape → Except Unit Bool
  intersection : Shape → Except Unit GeomJson

/-- The body of the `try` block of the core `ShapeFilter.process`
(`iomaps/core/spatial_filter.py`): `shape(feature["geometry"])` (a missing
geometry member raises), repair, and the intersection test. -/
def core_geom_check {Shape : Type} (orc : ShapelyOracle Shape) (f : Feature) :
    Except Unit Bool :=
  match f.geometry with
  | none => .error ()
  | some g =>
    match orc.shape g with
    | .error e => .error e
    | .ok s0 =>
      match orc.fix_if_required s0 with
      | .error e => .error e
      | .ok s1 => orc.intersects s1

/-- Model of the core `ShapeFilter.process`
(`iomaps/core/spatial_filter.py`): increment `count`; a decode failure
increments `unparsed` and yields null; an exception anywhere in the
geometry chain is caught, increments `error_count` and yields null; an
intersecting feature increments `passed` and is emitted renamed and
normalized; a non-intersecting feature yields null. -/
def core_shape_process {Shape : Type} (cfg : FilterConfig)
    (orc : ShapelyOracle Shape) (st : Counters) (line : Option Feature) :
    Counters × Option Feature :=
  let st := { st with count := st.count + 1 }
  match line with
  | none => ({ st with unparsed := st.unparsed + 1 }, none)
  | some feature =>
    match core_geom_check orc feature with
    | .ok true =>
      ({ st with passed := st.passed + 1 },
        some (normalize_properties cfg.schema_properties
          (apply_renames cfg.property_renames feature)))
    | .ok false => (st, none)
    | .error _ => ({ st with error_count := st.error_count + 1 }, none)

/-- Model of `ShapeFilter._geom_type_matches` (legacy
`iomaps/filter_7z.py`, identical logic in the legacy
`iomaps/infer_schema.py` `SchemaFilter`): no restriction matches
everything; strict mode requires exact equality; non-strict mode
additionally lets a multi-part feature type match its single-part
requested counterpart. -/
def geom_type_matches (limit_to_geom_type : Option String)
    (strict_geom_type_check : Bool) (feature_geom_type : String) : Bool :=
  match limit_to_geom_type with
  | none => true
  | some limit =>
    if strict_geom_type_check then feature_geom_type == limit
    else
      limit == feature_geom_type
        || (limit == "Polygon" && feature_geom_type == "MultiPolygon")
        || (limit == "LineString" && feature_geom_type == "MultiLineString")
        || (limit == "Point" && feature_geom_type == "MultiPoint")

/-- Configuration of the legacy `ShapeFilter` (`iomaps/filter_7z.py`):
`clip` (true unless `no_clip` was passed), the optional geometry-type
restriction, and the strictness flag. -/
structure LegacyFilterConfig where
  clip : Bool
  limit_to_geom_type : Option String
  strict_geom_type_check : Bool

/-- The `try` block of the legacy `ShapeFilter.process`: build, repair and
intersect; on intersection increment `passed` and, when clipping, replace
the geometry by the intersection with the filter shape.  An exception is
reported as `Except.error` carrying the counters as already mutated at the
raise point (`passed` is incremented before the clip call). -/
def legacy_try_block {Shape : Type} (cfg : LegacyFilterConfig)
    (orc : ShapelyOracle Shape) (st : Counters) (feature : Feature)
    (g : GeomJson) : Except Counters (Counters × Option Feature) :=
  match orc.shape g with
  | .error _ => .error st
  | .ok s0 =>
    match orc.fix_if_required s0 with
    | .error _ => .error st
    | .ok s1 =>
      match orc.intersects s1 with
      | .error _ => .error st
      | .ok b =>
        if b then
          let st := { st with passed := st.passed + 1 }
          if cfg.clip then
            match orc.intersection s1 with
            | .error _ => .error st
            | .ok gi => .ok (st, some { feature with geometry := some gi })
          else .ok (st, some feature)
        else .ok (st, none)

/-- Model of the legacy `ShapeFilter.process` (`iomaps/filter_7z.py`).
Unlike the core variant, `feature['geometry']['type']` is evaluated for the
geometry-type gate outside any `try`, so a feature without a geometry
object (or without a `type` member) raises an uncaught `KeyError`,
modelled as `Except.error`; a gate mismatch yields null before the
intersection test; exceptions inside the `try` increment `error_count`. -/
def legacy_shape_process {Shape : Type} (cfg : LegacyFilterConfig)
    (orc : ShapelyOracle Shape) (st : Counters) (line : Option Feature) :
    Except Unit (Counters × Option Feature) :=
  let st := { st with count := st.count + 1 }
  match line with
  | none => .ok ({ st with unparsed := st.unparsed + 1 }, none)
  | some feature =>
    match feature.geometry with
    | none => .error ()
    | some g =>
      match g.gtype with
      | none => .error ()
      | some t =>
        if geom_type_matches cfg.limit_to_geom_type
            cfg.strict_geom_type_check t then
          match legacy_try_block cfg orc st feature g with
          | .ok res => .ok res
          | .error stE =>
            .ok ({ stE with error_count := stE.error_count + 1 }, none)
        else .ok (st, none)

/-- An oracle whose geometry operations all succeed and intersect. -/
def trivial_oracle : ShapelyOracle Unit :=
  ⟨fun _ => .ok (), fun s => .ok s, fun _ => .ok true,
    fun _ => .ok ⟨some "Polygon", some (JValue.arr [])⟩⟩

/-- An oracle whose `shape` call raises. -/
def err_oracle : ShapelyOracle Unit :=
  ⟨fun _ => .error (), fun s => .ok s, fun _ => .ok true, fun _ => .error ()⟩

/-- An oracle whose intersection test always reports no intersection. -/
def nohit_oracle : ShapelyOracle Unit :=
  ⟨fun _ => .ok (), fun s => .ok s, fun _ => .ok false, fun _ => .error ()⟩

/-- An oracle that intersects and clips to the given geometry. -/
def clip_oracle (gi : GeomJson) : ShapelyOracle Unit :=
  ⟨fun _ => .ok (), fun s => .ok s, fun _ => .ok true, fun _ => .ok gi⟩

/-- C5.  Error handling of the filters.  For the core
`ShapeFilter.process`: every call increments `count` by exactly one; a
JSON-decode failure increments `unparsed` and returns null; an exception in
the geometry chain increments `error_count` and returns null; a
non-intersecting feature returns null with `passed`, `unparsed` and
`error_count` untouched.  The final conjunct exhibits the divergence of the
legacy `iomaps/filter_7z.py` variant: on the valid JSON line with no
geometry member (the parse of the line consisting of an empty JSON object)
its geometry-type gate raises an uncaught `KeyError` instead of returning
null. -/
theorem filter_process_error_handling (cfg : FilterConfig) (st : Counters) :
    (∀ {Shape : Type} (orc : ShapelyOracle Shape) (line : Option Feature),
        ((core_shape_process cfg orc st line).1).count = st.count + 1)
      ∧ (∀ {Shape : Type} (orc : ShapelyOracle Shape),
          core_shape_process cfg orc st none
            = ({ st with count := st.count + 1, unparsed := st.unparsed + 1 },
                none))
      ∧ (∀ f : Feature, core_shape_process cfg err_oracle st (some f)
            = ({ st with count := st.count + 1, error_count := st.error_count + 1 },
                none))
      ∧ (∀ (g : GeomJson) (props : Option (List (String × JValue))),
          core_shape_process cfg nohit_oracle st (some ⟨some g, props⟩)
            = ({ st with count := st.count + 1 }, none))
      ∧ legacy_shape_process ⟨true, none, false⟩ trivial_oracle st
            (some ⟨none, none⟩)
          = .error () := by
  refine ⟨?_, fun orc => rfl, ?_, fun g props => rfl, rfl⟩
  · intro Shape orc line
    match line with
    | none => rfl
    | some f =>
      simp only [core_shape_process]
      match core_geom_check orc f with
      | .ok true => rfl
      | .ok false => rfl
      | .error _ => rfl
  · intro f
    match f with
    | ⟨none, props⟩ => rfl
    | ⟨some g, props⟩ => rfl

/-- C6 counterexample: in non-strict mode a Polygon feature does not match
a MultiPolygon-tagged request (nor the analogous pairs); the lenient
direction of the code is the opposite of the claim. -/
theorem geom_type_gate_direction_counterexample :
    geom_type_matches (some "MultiPolygon") false "Polygon" = false
      ∧ geom_type_matches (some "MultiLineString") false "LineString" = false
      ∧ geom_type_matches (some "MultiPoint") false "Point" = false := by
  exact ⟨rfl, rfl, rfl⟩

/-- C6 (amended: the lenient direction is reversed).  With no restriction
every type matches; strict mode is exact equality; in non-strict mode a
type matches itself, and a MultiPolygon feature matches a Polygon-tagged
request, a MultiLineString feature a LineString-tagged request and a
MultiPoint feature a Point-tagged request, and nothing else matches; a
feature failing the gate is rejected before the intersection test, with no
counter but `count` touched and the geometry collaborator never consulted. -/
theorem geom_type_gate (limit : String) (t : String) :
    (∀ (u : String) (strict : Bool), geom_type_matches none strict u = true)
      ∧ (geom_type_matches (some limit) true t = (t == limit))
      ∧ (geom_type_matches (some limit) false t = true ↔
          (limit = t ∨ (limit = "Polygon" ∧ t = "MultiPolygon")
            ∨ (limit = "LineString" ∧ t = "MultiLineString")
            ∨ (limit = "Point" ∧ t = "MultiPoint")))
      ∧ (∀ {Shape : Type} (orc : ShapelyOracle Shape) (st : Counters)
          (cfg : LegacyFilterConfig) (c : Option JValue)
          (props : Option (List (String × JValue))),
          geom_type_matches cfg.limit_to_geom_type
              cfg.strict_geom_type_check t = false →
          legacy_shape_process cfg orc st
              (some ⟨some ⟨some t, c⟩, props⟩)
            = .ok ({ st with count := st.count + 1 }, none)) := by
  refine ⟨fun u strict => rfl, rfl, ?_, ?_⟩
  · have hunfold : geom_type_matches (some limit) false t
        = (limit == t || (limit == "Polygon" && t == "MultiPolygon")
            || (limit == "LineString" && t == "MultiLineString")
            || (limit == "Point" && t == "MultiPoint")) := rfl
    rw [hunfold]
    simp [Bool.or_eq_true, Bool.and_eq_true, beq_iff_eq, or_assoc]
  · intro Shape orc st cfg c props hfalse
    simp only [legacy_shape_process, hfalse]
    simp

/-- Witness for C6 at a concrete input: a Polygon feature under a
non-strict MultiPolygon restriction is rejected before the intersection
test. -/
theorem geom_type_gate_spot :
    geom_type_matches (some "MultiPolygon") false "Polygon" = false
      ∧ legacy_shape_process ⟨true, some "MultiPolygon", false⟩ trivial_oracle
          ⟨0, 0, 0, 0⟩ (some ⟨some ⟨some "Polygon", none⟩, none⟩)
        = .ok (⟨1, 0, 0, 0⟩, none) :=
  ⟨rfl, (geom_type_gate "MultiPolygon" "Polygon").2.2.2 trivial_oracle
    ⟨0, 0, 0, 0⟩ ⟨true, some "MultiPolygon", false⟩ none none rfl⟩

/-- Concrete Polygon geometry JSON used for the clip and sink theorems. -/
def poly_geom : GeomJson := ⟨some "Polygon", some (JValue.arr [JValue.num 0])⟩

/-- A clip result distinct from `poly_geom`. -/
def clip_result : GeomJson := ⟨some "Polygon", some (JValue.arr [JValue.num 1])⟩

/-- C8.  On an intersecting feature both filters increment `passed` and
return the feature, but only the legacy `iomaps/filter_7z.py` filter, with
clipping enabled (the default), replaces the geometry by the intersection
with the filter shape; the core `iomaps/core/spatial_filter.py` filter
that the CLI actually wires in has no clipping path and returns the
original geometry. -/
theorem spatial_clip_divergence :
    legacy_shape_process ⟨true, none, false⟩ (clip_oracle clip_result)
        ⟨0, 0, 0, 0⟩ (some ⟨some poly_geom, none⟩)
      = .ok (⟨1, 1, 0, 0⟩, some ⟨some clip_result, none⟩)
      ∧ core_shape_process ⟨[], []⟩ (clip_oracle clip_result)
          ⟨0, 0, 0, 0⟩ (some ⟨some poly_geom, none⟩)
        = (⟨1, 1, 0, 0⟩, some ⟨some poly_geom, none⟩)
      ∧ poly_geom ≠ clip_result := by
  refine ⟨rfl, rfl, ?_⟩
  intro h
  have := congrArg GeomJson.coordinates h
  simp [poly_geom, clip_result] at this

end SpatialFilter

namespace Writers

open SpatialFilter

/-- Model of the legacy `FionaWriter.convert_feature`
(`iomaps/filter_7z.py`): a feature whose geometry type equals the schema's
declared type passes through unchanged; when the schema type is the
multi-part counterpart of the feature's type, the coordinate array is
wrapped one level deeper and the type retagged; any other combination is
dropped with a warning (the method returns `None`).  Accessing a missing
`type` or `coordinates` member raises, modelled by `Except.error`. -/
def convert_feature (schema_geom_type : String) (feature : Feature) :
    Except Unit (Option Feature) :=
  match feature.geometry with
  | none => .error ()
  | some g =>
    match g.gtype with
    | none => .error ()
    | some geom_type =>
      if geom_type == schema_geom_type then .ok (some feature)
      else if schema_geom_type == "MultiPolygon" && geom_type == "Polygon" then
        match g.coordinates with
        | none => .error ()
        | some c =>
          .ok (some { feature with
            geometry := some ⟨some "MultiPolygon", some (JValue.arr [c])⟩ })
      else if schema_geom_type == "MultiLineString"
          && geom_type == "LineString" then
        match g.coordinates with
        | none => .error ()
        | some c =>
          .ok (some { feature with
            geometry := some ⟨some "MultiLineString", some (JValue.arr [c])⟩ })
      else if schema_geom_type == "MultiPoint" && geom_type == "Point" then
        match g.coordinates with
        | none => .error ()
        | some c =>
          .ok (some { feature with
            geometry := some ⟨some "MultiPoint", some (JValue.arr [c])⟩ })
      else .ok none

/-- Model of the legacy `FionaWriter.write` (`iomaps/filter_7z.py`): run
`convert_feature` and write the result unless it was dropped.  The written
sequence stands for the underlying fiona collection. -/
def legacy_fiona_write (schema_geom_type : String) (written : List Feature)
    (feature : Feature) : Except Unit (List Feature) :=
  match convert_feature schema_geom_type feature with
  | .error e => .error e
  | .ok none => .ok written
  | .ok (some f) => .ok (written ++ [f])

/-- Model of the core `FionaWriter.write` (`iomaps/core/writers.py`): the
feature is handed to the underlying collection unchanged; there is no
conversion, wrapping or dropping. -/
def core_fiona_write (written : List Feature) (feature : Feature) :
    List Feature :=
  written ++ [feature]

/-- Concrete Point geometry used for the incompatible-feature case. -/
def point_geom : GeomJson := ⟨some "Point", some (JValue.arr [JValue.num 2])⟩

/-- C7.  Geometry-type coercion at the sink.  The legacy
`iomaps/filter_7z.py` sink behaves as claimed: under a `MultiPolygon`
schema a `Polygon` feature is written with its coordinate array wrapped one
level deeper and its type retagged, an incompatible (`Point`) feature is
dropped and never written, and a feature already of the schema's type is
written unchanged.  The core `iomaps/core/writers.py` sink that the CLI
actually wires in diverges: it writes the single-part feature unchanged,
neither wrapping nor dropping it. -/
theorem sink_geometry_conversion_divergence :
    legacy_fiona_write "MultiPolygon" [] ⟨some poly_geom, none⟩
        = .ok [⟨some ⟨some "MultiPolygon",
            some (JValue.arr [JValue.arr [JValue.num 0]])⟩, none⟩]
      ∧ legacy_fiona_write "MultiPolygon" [] ⟨some point_geom, none⟩ = .ok []
      ∧ legacy_fiona_write "Polygon" [] ⟨some poly_geom, none⟩
          = .ok [⟨some poly_geom, none⟩]
      ∧ core_fiona_write [] ⟨some poly_geom, none⟩ = [⟨some poly_geom, none⟩] :=
  ⟨rfl, rfl, rfl, rfl⟩

end Writers

namespace Command

/-- Model of the geometry-type guard of `SchemaWriter.get_schema`
(`iomaps/core/infer_schema.py` lines 47-49): with zero observed geometry
types the schema is `None`; otherwise a schema is produced (only the
presence of the geometry-type list matters here). -/
def get_schema_geometry_guard (geom_types : List String) :
    Option (List String) :=
  if geom_types.isEmpty then none else some geom_types

/-- Observable outcome of one `filter-7z` command run. -/
structure CmdOutcome where
  exit_code : Nat
  write_pass_started : Bool
  output_file_created : Bool
  deriving Repr, DecidableEq

/-- What the `filter-7z` command does after schema inference
(`iomaps/commands/filter_7z.py` lines 168-193): when inference returned no
schema it logs an error and executes a plain `return`, which under click
ends the process normally, i.e. with exit code 0, without creating the
writer or starting the filter+write pass; otherwise it proceeds to the
write pass (abstracted here as the successful continuation). -/
def filter_7z_after_inference (schema : Option (List String)) : CmdOutcome :=
  match schema with
  | none =>
    { exit_code := 0, write_pass_started := false, output_file_created := false }
  | some _ =>
    { exit_code := 0, write_pass_started := true, output_file_created := true }

/-- C9.  When schema inference observes zero geometry types the schema is
`None` and the `filter-7z` command aborts before the filter+write pass with
no output produced — but the process exit code is 0, not non-zero as the
claim states: the command merely logs and returns, unlike the
configuration-error paths which raise `click.Abort`. -/
theorem schema_inference_failure_exit_code :
    get_schema_geometry_guard [] = none
      ∧ filter_7z_after_inference none
          = { exit_code := 0, write_pass_started := false,
              output_file_created := false }
      ∧ (filter_7z_after_inference none).write_pass_started = false
      ∧ (filter_7z_after_inference none).output_file_created = false
      ∧ (filter_7z_after_inference none).exit_code = 0 :=
  ⟨rfl, rfl, rfl, rfl, rfl⟩

end Command
